import Mathlib

/-!
Verification of the transport-client SDK (`src/sdk/client.py`).

The embedding models, directly from the source:
* the JSON-like Python values a response body can parse to (`PyVal`),
* `ApiClientConfig` (a pydantic model) and its construction from a raw mapping,
* `ApiClient.__init__`, `set_api_key`, `set_base_url` and the session headers,
* `ApiClient._make_request` (lines 52-95): the retry loop, backoff sleeps,
  error normalization, and the success envelope; the HTTP transport is
  abstracted as a map from attempt index to the attempt's outcome,
* CPython's `urllib.parse.urljoin` (and the pieces of `urlparse` /
  `urlunparse` it uses), which line 53 applies to resolve the full URL.

Machine integers are modelled as `Int` (Python ints are unbounded).
Strings are Lean `String`s; URLs are handled as `List Char` so that the
`urljoin` algorithm can be stated and proved structurally.
-/

/-- A Python value as produced by `response.json()`: the JSON universe
(floats are not needed by any claim and are omitted). -/
inductive PyVal where
  | str : String → PyVal
  | int : Int → PyVal
  | bool : Bool → PyVal
  | null : PyVal
  | list : List PyVal → PyVal
  | dict : List (String × PyVal) → PyVal

/-- Python dict lookup (first binding of the key; parsed JSON dicts have
unique keys). -/
def alookup {β : Type} (k : String) : List (String × β) → Option β
  | [] => Option.none
  | (k1, v) :: t => if k1 = k then some v else alookup k t

/-- `x.get(key, default)` on a Python value.  Only dictionaries have a `get`
attribute; calling it on any other value raises `AttributeError`, modelled as
`none`.  On a dictionary it returns the value bound to `key`, or `default`. -/
def pyDictGet : PyVal → String → PyVal → Option PyVal
  | PyVal.dict fs, k, d => some ((alookup k fs).getD d)
  | _, _, _ => Option.none

/-- `ApiClientConfig` (client.py lines 28-34): pydantic model with fields
`base_url`, optional `api_key`, `timeout` (default 30), `retries` (default 3),
`retry_delay` (default 1), `debug` (default False). -/
structure ApiClientConfig where
  base_url : String
  api_key : Option String
  timeout : Int
  retries : Int
  retry_delay : Int
  debug : Bool

/-- Read an optional string field from a raw mapping the way pydantic
validates `Optional[str]`: absent or `None` gives `none`, a string gives the
string, any other value is a validation error. -/
def optStrField (d : List (String × PyVal)) (k : String) : Option (Option String) :=
  match alookup k d with
  | Option.none => some Option.none
  | some (PyVal.str s) => some (some s)
  | some PyVal.null => some Option.none
  | some _ => Option.none

/-- Read an `int` field with a default.  Any integer — in particular a
negative one — passes pydantic's validation for a plain `int` field.
(Pydantic's numeric-string and bool coercions are not exercised by any
claim and are not modelled.) -/
def intField (d : List (String × PyVal)) (k : String) (dflt : Int) : Option Int :=
  match alookup k d with
  | Option.none => some dflt
  | some (PyVal.int n) => some n
  | some _ => Option.none

/-- Read a `bool` field with a default. -/
def boolField (d : List (String × PyVal)) (k : String) (dflt : Bool) : Option Bool :=
  match alookup k d with
  | Option.none => some dflt
  | some (PyVal.bool b) => some b
  | some _ => Option.none

/-- `ApiClientConfig(**config)` on a raw mapping (exercised by
`ApiClient.__init__`, lines 38-40).  `none` models a pydantic
`ValidationError`.  No range validation of any numeric field is performed,
mirroring the source, which declares plain `int` fields without validators. -/
def configFromDict (d : List (String × PyVal)) : Option ApiClientConfig :=
  match alookup "base_url" d with
  | some (PyVal.str b) =>
    match optStrField d "api_key", intField d "timeout" 30,
          intField d "retries" 3, intField d "retry_delay" 1,
          boolField d "debug" false with
    | some a, some t, some r, some rd, some dbg =>
      some ⟨b, a, t, r, rd, dbg⟩
    | _, _, _, _, _ => Option.none
  | _ => Option.none

/-- Python truthiness of an `Optional[str]`: `None` and the empty string are
falsy (used by `if config.api_key:` on line 47). -/
def pyTruthyOptStr : Option String → Bool
  | Option.none => false
  | some s => !(s == "")

/-- `d[k] = v` on a Python dict: overwrite in place when the key is present
(keeping insertion order), append otherwise. -/
def dictSet (d : List (String × String)) (k v : String) : List (String × String) :=
  if d.any (fun p => decide (p.1 = k)) then
    d.map (fun p => if p.1 = k then (k, v) else p)
  else d ++ [(k, v)]

/-- The client state: its config and the session's header dict.
`requests`' library default headers (User-Agent and friends) carry no
information relevant to any claim and are left out of the initial dict. -/
structure ApiClient where
  config : ApiClientConfig
  headers : List (String × String)

/-- `ApiClient.__init__` (lines 38-50): build the header dict with
`Content-Type: application/json`, add `Authorization: Bearer <key>` when the
configured key is truthy, and install it on the session. -/
def ApiClient.init (cfg : ApiClientConfig) : ApiClient :=
  let h1 := dictSet [] "Content-Type" "application/json"
  let h2 :=
    if pyTruthyOptStr cfg.api_key then
      dictSet h1 "Authorization" ("Bearer " ++ cfg.api_key.getD "")
    else h1
  ⟨cfg, h2⟩

/-- `set_api_key` (lines 127-129): replace the config's key and overwrite the
session's `Authorization` header unconditionally. -/
def ApiClient.set_api_key (c : ApiClient) (k : String) : ApiClient :=
  ⟨{ c.config with api_key := some k },
   dictSet c.headers "Authorization" ("Bearer " ++ k)⟩

/-- `set_base_url` (lines 131-132): replace the config's base URL. -/
def ApiClient.set_base_url (c : ApiClient) (b : String) : ApiClient :=
  ⟨{ c.config with base_url := b }, c.headers⟩

/-- What one call to `self.session.request` can produce: a received HTTP
response (status code, the result of `response.json()` — `none` when the body
does not parse — the raw text, and headers), or a raised
`requests.RequestException` with a message. -/
inductive AttemptOutcome where
  | received : Int → Option PyVal → String → List (String × String) → AttemptOutcome
  | raised : String → AttemptOutcome

/-- `ApiError` (lines 13-18).  `message` and `code` are whatever
`error_data.get` returned (any Python value), `details` is the `details`
argument (`None` by default, hence `PyVal.null` for network errors). -/
structure ApiError where
  message : PyVal
  status : Int
  code : PyVal
  details : PyVal

/-- `ApiResponse` (lines 21-25). -/
structure ApiResponse where
  data : PyVal
  status : Int
  headers : List (String × String)
  success : Bool

/-- The observable result of `_make_request`: a returned envelope, a raised
`ApiError`, a raised `AttributeError` (from calling `.get` on a non-dict
parsed error body, line 74 / 76 — not caught anywhere in the function), or
the implicit `None` Python returns when the `for` loop body never runs. -/
inductive ReqOutcome where
  | ok : ApiResponse → ReqOutcome
  | err : ApiError → ReqOutcome
  | attributeError : ReqOutcome
  | noReturn : ReqOutcome

/-- The retry loop of `_make_request` (lines 55-95).  `attempt` is the loop
index, `remaining` the number of iterations `range(retries + 1)` still has to
run, `sleeps` the `time.sleep` durations accumulated so far.  Returns the
outcome, the total number of attempts performed, and the sleep trace.

Branches, in source order:
* line 62: `status_code >= 500 and attempt < retries` → sleep
  `retry_delay * (attempt + 1)` and continue;
* line 66: `not response.ok` — `ok` is `requests`' status test
  `not (400 <= status < 600)` — → `error_data` is the parsed body or an empty
  dict (lines 67-71), then `ApiError(error_data.get('message', …), status,
  error_data.get('code', 'UNKNOWN_ERROR'), error_data)`; `.get` on a
  non-dict body raises `AttributeError`;
* lines 80-90: success envelope, `data` the parsed body or the raw text;
* lines 92-95: `RequestException` → `ApiError(str(e), 0, 'NETWORK_ERROR')`
  when `attempt == retries`, else sleep and continue. -/
def runAttempts (cfg : ApiClientConfig) (env : Nat → AttemptOutcome) :
    Nat → Nat → List Int → ReqOutcome × Nat × List Int
  | attempt, 0, sleeps => (ReqOutcome.noReturn, attempt, sleeps)
  | attempt, remaining + 1, sleeps =>
    match env attempt with
    | AttemptOutcome.received status body text hdrs =>
      if 500 ≤ status ∧ (attempt : Int) < cfg.retries then
        runAttempts cfg env (attempt + 1) remaining
          (sleeps ++ [cfg.retry_delay * ((attempt : Int) + 1)])
      else if 400 ≤ status ∧ status < 600 then
        let error_data := body.getD (PyVal.dict [])
        match pyDictGet error_data "message"
                (PyVal.str ("Request failed with status " ++ toString status)),
              pyDictGet error_data "code" (PyVal.str "UNKNOWN_ERROR") with
        | some m, some c =>
          (ReqOutcome.err ⟨m, status, c, error_data⟩, attempt + 1, sleeps)
        | _, _ => (ReqOutcome.attributeError, attempt + 1, sleeps)
      else
        (ReqOutcome.ok ⟨body.getD (PyVal.str text), status, hdrs, true⟩,
         attempt + 1, sleeps)
    | AttemptOutcome.raised msg =>
      if (attempt : Int) = cfg.retries then
        (ReqOutcome.err ⟨PyVal.str msg, 0, PyVal.str "NETWORK_ERROR", PyVal.null⟩,
         attempt + 1, sleeps)
      else
        runAttempts cfg env (attempt + 1) remaining
          (sleeps ++ [cfg.retry_delay * ((attempt : Int) + 1)])

/-- `_make_request` from the top: `for attempt in range(self.config.retries + 1)`
runs `max (retries + 1) 0` iterations starting at attempt 0. -/
def makeRequest (cfg : ApiClientConfig) (env : Nat → AttemptOutcome) :
    ReqOutcome × Nat × List Int :=
  runAttempts cfg env 0 (cfg.retries + 1).toNat []

/-!
CPython `urllib.parse` (3.11), modelled over `List Char`, as far as
`urljoin` — which line 53 of client.py uses to resolve the request URL —
needs it.  The `ValueError`s that `urlsplit` raises — on an authority with
mismatched square brackets, and from the `_checknetloc` NFKC validation of
non-ASCII authorities — are outside this model; the theorems below only
quantify over ASCII authorities without brackets, on which neither check
can fire.
-/

/-- The schemes that may use relative references (`urllib.parse.uses_relative`). -/
def usesRelative : List (List Char) :=
  ["", "ftp", "http", "gopher", "nntp", "imap", "wais", "file", "https",
   "shttp", "mms", "prospero", "rtsp", "rtspu", "sftp", "svn", "svn+ssh",
   "ws", "wss"].map String.toList

/-- The schemes that use a network location (`urllib.parse.uses_netloc`). -/
def usesNetloc : List (List Char) :=
  ["", "ftp", "http", "gopher", "nntp", "telnet", "imap", "wais", "file",
   "mms", "https", "shttp", "snews", "prospero", "rtsp", "rtspu", "rsync",
   "svn", "svn+ssh", "sftp", "nfs", "git", "git+ssh", "ws", "wss"].map
    String.toList

/-- The schemes whose last path segment may carry `;params`
(`urllib.parse.uses_params`). -/
def usesParams : List (List Char) :=
  ["", "ftp", "hdl", "prospero", "http", "imap", "https", "shttp", "rtsp",
   "rtspu", "sip", "sips", "mms", "sftp", "tel"].map String.toList

/-- `urllib.parse.scheme_chars`. -/
def isSchemeChar (c : Char) : Bool :=
  c.isAlpha || c.isDigit || c == '+' || c == '-' || c == '.'

/-- Split a list at the first occurrence of `c` (Python `s.split(c, 1)` when
it fires, `s.find(c)` otherwise); `none` when `c` does not occur. -/
def splitAtFirst (c : Char) : List Char → Option (List Char × List Char)
  | [] => Option.none
  | x :: xs =>
    if x = c then some ([], xs)
    else
      match splitAtFirst c xs with
      | Option.none => Option.none
      | some (a, b) => some (x :: a, b)

/-- Split a list at its last `'/'`; `none` when there is none
(`url.rfind('/')`). -/
def splitAtLastSlash : List Char → Option (List Char × List Char)
  | [] => Option.none
  | c :: cs =>
    match splitAtLastSlash cs with
    | some (a, b) => some (c :: a, b)
    | Option.none => if c = '/' then some ([], cs) else Option.none

/-- ASCII lowering of a parsed scheme (`url[:i].lower()`). -/
def lowerList (l : List Char) : List Char := l.map Char.toLower

/-- `urlsplit`'s scheme detection: the text before the first `':'` becomes
the scheme when it is nonempty, starts with an ASCII letter, and consists of
scheme characters; otherwise the supplied default scheme stands. -/
def pySplitScheme (url : List Char) (dflt : List Char) : List Char × List Char :=
  match splitAtFirst ':' url with
  | some (pre, post) =>
    if (!pre.isEmpty) &&
        (match pre with
         | c :: _ => c.isAlpha
         | [] => false) &&
        pre.all isSchemeChar then
      (lowerList pre, post)
    else (dflt, url)
  | Option.none => (dflt, url)

/-- `_splitnetloc`: the network location extends to the first of
`'/'`, `'?'`, `'#'`. -/
def spanNetloc : List Char → List Char × List Char
  | [] => ([], [])
  | c :: cs =>
    if c = '/' ∨ c = '?' ∨ c = '#' then ([], c :: cs)
    else
      let p := spanNetloc cs
      (c :: p.1, p.2)

/-- Characters `urlsplit` deletes anywhere in the URL (tab, CR, LF). -/
def removedUrlByte (c : Char) : Bool :=
  c == '\t' || c == '\r' || c == '\n'

/-- Characters `urlsplit` strips from the front of the URL
(C0 controls and space). -/
def whatwgControlOrSpace (c : Char) : Bool := c ≤ ' '

structure UrlSplitResult where
  scheme : List Char
  netloc : List Char
  path : List Char
  query : List Char
  fragment : List Char

/-- `urlsplit(url, scheme, allow_fragments=True)`: sanitize, split off the
scheme, the `//`-introduced network location, then the fragment at the first
`'#'` and the query at the first `'?'`.

Two `ValueError` branches of CPython's `urlsplit` are outside this model: the
mismatched-bracket check on the authority, and `_checknetloc`, the NFKC
check that rejects a non-ASCII authority whose normalization introduces one
of `/?#@:` (e.g. U+2100 normalizes to a slash-containing string).  Neither
check can fire on an ASCII, bracket-free authority — `_checknetloc` returns
immediately when `netloc.isascii()` — and every theorem below quantifies
only over such authorities (`netlocChar`), so on their domain this total
function agrees with CPython. -/
def pyUrlsplit (url0 : List Char) (dfltScheme : List Char) : UrlSplitResult :=
  let url1 := (url0.dropWhile whatwgControlOrSpace).filter
    (fun c => !(removedUrlByte c))
  let sp := pySplitScheme url1 dfltScheme
  let nl :=
    if sp.2.take 2 = ['/', '/'] then spanNetloc (sp.2.drop 2) else ([], sp.2)
  let fr :=
    match splitAtFirst '#' nl.2 with
    | some (a, b) => (a, b)
    | Option.none => (nl.2, [])
  let qu :=
    match splitAtFirst '?' fr.1 with
    | some (a, b) => (a, b)
    | Option.none => (fr.1, [])
  ⟨sp.1, nl.1, qu.1, qu.2, fr.2⟩

/-- `_splitparams`: split `;params` off the last path segment — the first
`';'` after the last `'/'` (or anywhere when the path has no `'/'`). -/
def pySplitParams (path : List Char) : List Char × List Char :=
  match splitAtLastSlash path with
  | some (pre, post) =>
    match splitAtFirst ';' post with
    | some (a, b) => (pre ++ '/' :: a, b)
    | Option.none => (path, [])
  | Option.none =>
    match splitAtFirst ';' path with
    | some (a, b) => (a, b)
    | Option.none => (path, [])

structure UrlParseResult where
  scheme : List Char
  netloc : List Char
  path : List Char
  params : List Char
  query : List Char
  fragment : List Char

/-- `urlparse`: `urlsplit` plus the params split for the schemes that use it. -/
def pyUrlparse (url : List Char) (dfltScheme : List Char) : UrlParseResult :=
  let s := pyUrlsplit url dfltScheme
  let pp :=
    if usesParams.contains s.scheme && s.path.contains ';' then
      pySplitParams s.path
    else (s.path, [])
  ⟨s.scheme, s.netloc, pp.1, pp.2, s.query, s.fragment⟩

/-- `urlunsplit`. -/
def pyUrlunsplit (scheme netloc url query fragment : List Char) : List Char :=
  let url1 :=
    if netloc ≠ [] ∨ (url ≠ [] ∧ url.take 2 = ['/', '/']) then
      let u := if url ≠ [] ∧ url.take 1 ≠ ['/'] then '/' :: url else url
      '/' :: '/' :: (netloc ++ u)
    else url
  let url2 := if scheme ≠ [] then scheme ++ ':' :: url1 else url1
  let url3 := if query ≠ [] then url2 ++ '?' :: query else url2
  if fragment ≠ [] then url3 ++ '#' :: fragment else url3

/-- `urlunparse`. -/
def pyUrlunparse (scheme netloc path params query fragment : List Char) :
    List Char :=
  pyUrlunsplit scheme netloc
    (if params ≠ [] then path ++ ';' :: params else path) query fragment

/-- Python `s.split('/')` (never returns an empty list). -/
def splitSlash : List Char → List (List Char)
  | [] => [[]]
  | c :: cs =>
    if c = '/' then [] :: splitSlash cs
    else
      match splitSlash cs with
      | [] => [[c]]
      | h :: t => (c :: h) :: t

/-- Python `'/'.join(parts)`. -/
def joinSlash : List (List Char) → List Char
  | [] => []
  | [a] => a
  | a :: b :: t => a ++ '/' :: joinSlash (b :: t)

/-- `segments[1:-1] = filter(None, segments[1:-1])`: drop empty segments,
keeping the first and the last. -/
def filterMiddle (l : List (List Char)) : List (List Char) :=
  match l with
  | [] => []
  | [a] => [a]
  | a :: b :: t =>
    a :: ((b :: t).dropLast.filter (fun s => !s.isEmpty)) ++
      [(b :: t).getLastD []]

/-- One step of `urljoin`'s segment resolution: `'..'` pops the last resolved
segment (silently on an empty stack), `'.'` is skipped, anything else is
appended. -/
def resolveStep (acc : List (List Char)) (seg : List Char) : List (List Char) :=
  if seg = ['.', '.'] then acc.dropLast
  else if seg = ['.'] then acc
  else acc ++ [seg]

/-- `urllib.parse.urljoin(base, url)`, CPython 3.11. -/
def pyUrljoin (base url : List Char) : List Char :=
  if base = [] then url
  else if url = [] then base
  else
    let b := pyUrlparse base []
    let r := pyUrlparse url b.scheme
    if r.scheme ≠ b.scheme ∨ ¬ usesRelative.contains r.scheme then url
    else
      let inNetloc := usesNetloc.contains r.scheme
      if inNetloc ∧ r.netloc ≠ [] then
        pyUrlunparse r.scheme r.netloc r.path r.params r.query r.fragment
      else
        let netloc := if inNetloc then b.netloc else r.netloc
        if r.path = [] ∧ r.params = [] then
          let query := if r.query = [] then b.query else r.query
          pyUrlunparse r.scheme netloc b.path b.params query r.fragment
        else
          let baseParts0 := splitSlash b.path
          let baseParts :=
            if baseParts0.getLastD [] ≠ [] then baseParts0.dropLast
            else baseParts0
          let segments :=
            if r.path.take 1 = ['/'] then splitSlash r.path
            else filterMiddle (baseParts ++ splitSlash r.path)
          let resolved0 := segments.foldl resolveStep []
          let lastSeg := segments.getLastD []
          let resolved :=
            if lastSeg = ['.'] ∨ lastSeg = ['.', '.'] then resolved0 ++ [[]]
            else resolved0
          let joined := joinSlash resolved
          let path := if joined = [] then ['/'] else joined
          pyUrlunparse r.scheme netloc path r.params r.query r.fragment

/-- The URL resolution `_make_request` performs on line 53:
`urljoin(self.config.base_url, url)`. -/
def ApiClient.fullUrl (c : ApiClient) (url : String) : List Char :=
  pyUrljoin c.config.base_url.toList url.toList

/-- `ApiClient.get` (line 97-98) = `_make_request('GET', url, params=params)`:
resolve the full URL (line 53), send the session headers on every attempt,
and run the retry loop against the abstract transport `env`. -/
def ApiClient.get (c : ApiClient) (url : String) (env : Nat → AttemptOutcome) :
    List Char × List (String × String) × ReqOutcome × Nat × List Int :=
  (c.fullUrl url, c.headers, makeRequest c.config env)

/-! Helper lemmas about the list-level building blocks. -/

theorem splitAtFirst_not_mem {c : Char} {l : List Char} (h : c ∉ l) :
    splitAtFirst c l = Option.none := by
  induction l with
  | nil => rfl
  | cons x xs ih =>
    have hx : ¬ x = c := fun hc => h (hc ▸ List.mem_cons_self x xs)
    have hxs : c ∉ xs := fun hc => h (List.mem_cons_of_mem x hc)
    simp [splitAtFirst, hx, ih hxs]

theorem splitAtFirst_append {c : Char} {a b : List Char} (h : c ∉ a) :
    splitAtFirst c (a ++ c :: b) = some (a, b) := by
  induction a with
  | nil => simp [splitAtFirst]
  | cons x xs ih =>
    have hx : ¬ x = c := fun hc => h (hc ▸ List.mem_cons_self x xs)
    have hxs : c ∉ xs := fun hc => h (List.mem_cons_of_mem x hc)
    simp [splitAtFirst, hx, ih hxs]

theorem spanNetloc_append {n rest : List Char}
    (h : ∀ x ∈ n, ¬ (x = '/' ∨ x = '?' ∨ x = '#')) :
    spanNetloc (n ++ '/' :: rest) = (n, '/' :: rest) := by
  induction n with
  | nil => simp [spanNetloc]
  | cons x xs ih =>
    have hx := h x (List.mem_cons_self x xs)
    have hxs : ∀ y ∈ xs, ¬ (y = '/' ∨ y = '?' ∨ y = '#') :=
      fun y hy => h y (List.mem_cons_of_mem x hy)
    simp [spanNetloc, hx, ih hxs]

theorem contains_eq_false_of_forall {l : List Char} {c : Char}
    (h : ∀ x ∈ l, x ≠ c) : l.contains c = false := by
  induction l with
  | nil => rfl
  | cons x xs ih =>
    have hx : (c == x) = false :=
      beq_eq_false_iff_ne.mpr fun hh => h x (List.mem_cons_self x xs) hh.symm
    have hxs : ∀ y ∈ xs, y ≠ c := fun y hy => h y (List.mem_cons_of_mem x hy)
    rw [List.contains_cons, hx, Bool.false_or]
    exact ih hxs

theorem filter_removed_eq_self {l : List Char} (h : ∀ c ∈ l, ' ' < c) :
    l.filter (fun c => !(removedUrlByte c)) = l := by
  refine List.filter_eq_self.mpr fun c hc => ?_
  have hcgt := h c hc
  have h9 : c ≠ '\t' := fun hh => by rw [hh] at hcgt; exact absurd hcgt (by decide)
  have h13 : c ≠ '\r' := fun hh => by rw [hh] at hcgt; exact absurd hcgt (by decide)
  have h10 : c ≠ '\n' := fun hh => by rw [hh] at hcgt; exact absurd hcgt (by decide)
  simp [removedUrlByte, h9, h13, h10]

theorem splitSlash_ne_nil (l : List Char) : splitSlash l ≠ [] := by
  induction l with
  | nil => simp [splitSlash]
  | cons c cs ih =>
    by_cases hc : c = '/'
    · simp [splitSlash, hc]
    · cases hs : splitSlash cs with
      | nil => simp [splitSlash, hc, hs]
      | cons h t => simp [splitSlash, hc, hs]

theorem joinSlash_splitSlash (l : List Char) : joinSlash (splitSlash l) = l := by
  induction l with
  | nil => rfl
  | cons c cs ih =>
    by_cases hc : c = '/'
    · subst hc
      cases hs : splitSlash cs with
      | nil => exact absurd hs (splitSlash_ne_nil cs)
      | cons h t =>
        rw [hs] at ih
        simp [splitSlash, joinSlash, hs, ih]
    · cases hs : splitSlash cs with
      | nil => exact absurd hs (splitSlash_ne_nil cs)
      | cons h t =>
        rw [hs] at ih
        cases t with
        | nil => simp [splitSlash, hc, hs, joinSlash] at ih ⊢; simpa using ih
        | cons t0 ts =>
          simp [splitSlash, hc, hs, joinSlash] at ih ⊢
          simpa using ih

theorem foldl_resolveStep {segs : List (List Char)}
    (h : ∀ s ∈ segs, s ≠ ['.'] ∧ s ≠ ['.', '.']) :
    ∀ acc, segs.foldl resolveStep acc = acc ++ segs := by
  induction segs with
  | nil => intro acc; simp
  | cons s ss ih =>
    intro acc
    have hs := h s (List.mem_cons_self s ss)
    have hss : ∀ x ∈ ss, x ≠ ['.'] ∧ x ≠ ['.', '.'] :=
      fun x hx => h x (List.mem_cons_of_mem s hx)
    simp [List.foldl_cons, resolveStep, hs.1, hs.2, ih hss]

theorem getLastD_mem {l : List (List Char)} (h : l ≠ []) (d : List Char) :
    l.getLastD d ∈ l := by
  induction l generalizing d with
  | nil => exact absurd rfl h
  | cons a t ih =>
    cases t with
    | nil => simp [List.getLastD]
    | cons b u =>
      rw [List.getLastD_cons]
      exact List.mem_cons_of_mem a (ih (by simp) a)

theorem alookup_map_overwrite (d : List (String × String)) (k v : String)
    (h : ∃ p ∈ d, p.1 = k) :
    alookup k (d.map (fun p => if p.1 = k then (k, v) else p)) = some v := by
  induction d with
  | nil =>
    obtain ⟨p, hp, _⟩ := h
    exact absurd hp (List.not_mem_nil p)
  | cons a t ih =>
    obtain ⟨a1, a2⟩ := a
    by_cases ha : a1 = k
    · subst ha
      rw [List.map_cons, if_pos rfl]
      simp [alookup]
    · have hmem : ∃ p ∈ t, p.1 = k := by
        obtain ⟨p, hp, hpk⟩ := h
        rcases List.mem_cons.mp hp with rfl | hm
        · exact absurd hpk ha
        · exact ⟨p, hm, hpk⟩
      rw [List.map_cons, if_neg ha]
      simp only [alookup, ha, if_false]
      exact ih hmem

theorem alookup_append_missing (d : List (String × String)) (k v : String)
    (h : ∀ p ∈ d, p.1 ≠ k) :
    alookup k (d ++ [(k, v)]) = some v := by
  induction d with
  | nil => simp [alookup]
  | cons a t ih =>
    obtain ⟨a1, a2⟩ := a
    have ha : a1 ≠ k := h (a1, a2) (List.mem_cons_self _ _)
    simp only [List.cons_append, alookup, ha, if_false]
    exact ih fun p hp => h p (List.mem_cons_of_mem _ hp)

theorem alookup_dictSet_self (d : List (String × String)) (k v : String) :
    alookup k (dictSet d k v) = some v := by
  unfold dictSet
  by_cases h : (d.any fun p => decide (p.1 = k)) = true
  · rw [if_pos h]
    refine alookup_map_overwrite d k v ?_
    obtain ⟨p, hp, hpk⟩ := List.any_eq_true.mp h
    exact ⟨p, hp, of_decide_eq_true hpk⟩
  · rw [if_neg h]
    refine alookup_append_missing d k v ?_
    intro p hp hpk
    exact h (List.any_eq_true.mpr ⟨p, hp, by simp [hpk]⟩)

/-! Lemmas about the retry loop. -/

/-- An ordinary URL character: printable, not a query/fragment/params
delimiter. -/
def plainUrlChar (c : Char) : Prop :=
  ' ' < c ∧ c ≠ '?' ∧ c ≠ '#' ∧ c ≠ ';'

/-- A character that may appear in a host[:port] authority: printable ASCII
and none of the delimiters that end or invalidate the network location.
Keeping the authority ASCII matters for fidelity: CPython's `_checknetloc`
NFKC validation returns immediately on ASCII authorities, so it cannot raise
on the domain the theorems below quantify over. -/
def netlocChar (c : Char) : Prop :=
  ' ' < c ∧ c ≠ '/' ∧ c ≠ '?' ∧ c ≠ '#' ∧ c ≠ '[' ∧ c ≠ ']' ∧ c.toNat < 128

instance (c : Char) : Decidable (plainUrlChar c) := by
  unfold plainUrlChar; infer_instance

instance (c : Char) : Decidable (netlocChar c) := by
  unfold netlocChar; infer_instance

theorem pySplitScheme_slash (t dflt : List Char) :
    pySplitScheme ('/' :: t) dflt = (dflt, '/' :: t) := by
  unfold pySplitScheme
  have h0 : splitAtFirst ':' ('/' :: t) =
      match splitAtFirst ':' t with
      | Option.none => Option.none
      | some (a, b) => some ('/' :: a, b) := by
    simp [splitAtFirst]
  rw [h0]
  cases h2 : splitAtFirst ':' t with
  | none => rfl
  | some pr =>
    obtain ⟨a, b⟩ := pr
    have hm : ('/').isAlpha = false := by decide
    simp [hm]

theorem pyUrlsplit_base (s n p : List Char)
    (hcol : ':' ∉ s)
    (hhead : ∃ c t, s = c :: t ∧ ' ' < c ∧ c.isAlpha = true)
    (hsws : ∀ c ∈ s, ' ' < c)
    (hall : s.all isSchemeChar = true)
    (hlower : lowerList s = s)
    (hn : ∀ c ∈ n, netlocChar c)
    (hp : ∀ c ∈ p, plainUrlChar c) :
    pyUrlsplit (s ++ ':' :: '/' :: '/' :: (n ++ '/' :: p)) [] =
      ⟨s, n, '/' :: p, [], []⟩ := by
  obtain ⟨c0, t0, rfl, hc0, halpha⟩ := hhead
  have hws : ∀ c ∈ (c0 :: t0) ++ ':' :: '/' :: '/' :: (n ++ '/' :: p), ' ' < c := by
    intro c hc
    rcases List.mem_append.mp hc with hc1 | hc2
    · exact hsws c hc1
    · rcases List.mem_cons.mp hc2 with rfl | hc3
      · decide
      · rcases List.mem_cons.mp hc3 with rfl | hc4
        · decide
        · rcases List.mem_cons.mp hc4 with rfl | hc5
          · decide
          · rcases List.mem_append.mp hc5 with hc6 | hc7
            · exact (hn c hc6).1
            · rcases List.mem_cons.mp hc7 with rfl | hc8
              · decide
              · exact (hp c hc8).1
  unfold pyUrlsplit
  have hdw : List.dropWhile whatwgControlOrSpace
      ((c0 :: t0) ++ ':' :: '/' :: '/' :: (n ++ '/' :: p)) =
      (c0 :: t0) ++ ':' :: '/' :: '/' :: (n ++ '/' :: p) := by
    rw [List.cons_append, List.dropWhile_cons]
    have : whatwgControlOrSpace c0 = false :=
      decide_eq_false (not_le.mpr hc0)
    simp [this]
  rw [hdw, filter_removed_eq_self hws]
  have hsch : pySplitScheme ((c0 :: t0) ++ ':' :: '/' :: '/' :: (n ++ '/' :: p)) [] =
      (c0 :: t0, '/' :: '/' :: (n ++ '/' :: p)) := by
    unfold pySplitScheme
    rw [splitAtFirst_append hcol]
    simp [halpha, hall, hlower]
  have htk : ('/' :: '/' :: (n ++ '/' :: p)).take 2 = ['/', '/'] := by
    simp [List.take]
  have hdr : ('/' :: '/' :: (n ++ '/' :: p)).drop 2 = n ++ '/' :: p := by
    simp [List.drop]
  have hspan : spanNetloc (n ++ '/' :: p) = (n, '/' :: p) := by
    refine spanNetloc_append ?_
    intro x hx
    have := hn x hx
    rintro (rfl | rfl | rfl)
    · exact this.2.1 rfl
    · exact this.2.2.1 rfl
    · exact this.2.2.2.1 rfl
  have hfr : splitAtFirst '#' ('/' :: p) = Option.none := by
    refine splitAtFirst_not_mem ?_
    intro hc
    rcases List.mem_cons.mp hc with h1 | h2
    · exact absurd h1 (by decide)
    · exact (hp '#' h2).2.2.1 rfl
  have hqu : splitAtFirst '?' ('/' :: p) = Option.none := by
    refine splitAtFirst_not_mem ?_
    intro hc
    rcases List.mem_cons.mp hc with h1 | h2
    · exact absurd h1 (by decide)
    · exact (hp '?' h2).2.1 rfl
  simp only [hsch, htk, hdr, hspan, hfr, hqu, if_pos rfl, if_true]

theorem pyUrlparse_base (s n p : List Char)
    (hcol : ':' ∉ s)
    (hhead : ∃ c t, s = c :: t ∧ ' ' < c ∧ c.isAlpha = true)
    (hsws : ∀ c ∈ s, ' ' < c)
    (hall : s.all isSchemeChar = true)
    (hlower : lowerList s = s)
    (hn : ∀ c ∈ n, netlocChar c)
    (hp : ∀ c ∈ p, plainUrlChar c) :
    pyUrlparse (s ++ ':' :: '/' :: '/' :: (n ++ '/' :: p)) [] =
      ⟨s, n, '/' :: p, [], [], []⟩ := by
  unfold pyUrlparse
  rw [pyUrlsplit_base s n p hcol hhead hsws hall hlower hn hp]
  have hnot : ¬ (s ∈ usesParams ∧ ';' ∈ p) := by
    rintro ⟨_, hmem⟩
    exact (hp ';' hmem).2.2.2 rfl
  simp [hnot]

theorem pyUrlsplit_absref (dflt r : List Char)
    (hr : ∀ c ∈ r, plainUrlChar c)
    (hr2 : r.take 1 ≠ ['/']) :
    pyUrlsplit ('/' :: r) dflt = ⟨dflt, [], '/' :: r, [], []⟩ := by
  have hws : ∀ c ∈ '/' :: r, ' ' < c := by
    intro c hc
    rcases List.mem_cons.mp hc with rfl | h2
    · decide
    · exact (hr c h2).1
  unfold pyUrlsplit
  have hdw : List.dropWhile whatwgControlOrSpace ('/' :: r) = '/' :: r := by
    have hsp : whatwgControlOrSpace '/' = false := by decide
    simp [List.dropWhile_cons, hsp]
  rw [hdw, filter_removed_eq_self hws]
  have htk : ('/' :: r).take 2 ≠ ['/', '/'] := by
    intro hc
    rcases r with _ | ⟨c1, r1⟩
    · simp at hc
    · simp [List.take] at hc
      exact hr2 (by simp [List.take, hc])
  have hfr : splitAtFirst '#' ('/' :: r) = Option.none := by
    refine splitAtFirst_not_mem ?_
    intro hc
    rcases List.mem_cons.mp hc with h1 | h2
    · exact absurd h1 (by decide)
    · exact (hr '#' h2).2.2.1 rfl
  have hqu : splitAtFirst '?' ('/' :: r) = Option.none := by
    refine splitAtFirst_not_mem ?_
    intro hc
    rcases List.mem_cons.mp hc with h1 | h2
    · exact absurd h1 (by decide)
    · exact (hr '?' h2).2.1 rfl
  simp only [pySplitScheme_slash, if_neg htk, hfr, hqu]

theorem pyUrlparse_absref (dflt r : List Char)
    (hr : ∀ c ∈ r, plainUrlChar c)
    (hr2 : r.take 1 ≠ ['/']) :
    pyUrlparse ('/' :: r) dflt = ⟨dflt, [], '/' :: r, [], [], []⟩ := by
  unfold pyUrlparse
  rw [pyUrlsplit_absref dflt r hr hr2]
  have hnot : ¬ (dflt ∈ usesParams ∧ ';' ∈ r) := by
    rintro ⟨_, hmem⟩
    exact (hr ';' hmem).2.2.2 rfl
  simp [hnot]

theorem splitSlash_cons_slash (x : List Char) :
    splitSlash ('/' :: x) = [] :: splitSlash x := by
  simp [splitSlash]

theorem joinSlash_cons_split (x : List Char) :
    joinSlash ([] :: splitSlash x) = '/' :: x := by
  cases hs : splitSlash x with
  | nil => exact absurd hs (splitSlash_ne_nil x)
  | cons h t =>
    have : joinSlash ([] :: h :: t) = [] ++ '/' :: joinSlash (h :: t) := by
      rw [joinSlash]
    rw [this, List.nil_append, ← hs, joinSlash_splitSlash]

theorem pyUrlunparse_simple (s n r : List Char) (hs0 : s ≠ []) (hn0 : n ≠ []) :
    pyUrlunparse s n ('/' :: r) [] [] [] =
      s ++ ':' :: '/' :: '/' :: (n ++ '/' :: r) := by
  unfold pyUrlunparse pyUrlunsplit
  have htk : ('/' :: r).take 1 = ['/'] := by simp [List.take]
  simp [hs0, hn0, htk]

theorem pyUrljoin_absref_general (s n p r : List Char)
    (hcol : ':' ∉ s)
    (hhead : ∃ c t, s = c :: t ∧ ' ' < c ∧ c.isAlpha = true)
    (hsws : ∀ c ∈ s, ' ' < c)
    (hall : s.all isSchemeChar = true)
    (hlower : lowerList s = s)
    (hrel : s ∈ usesRelative)
    (hnetl : usesNetloc.contains s = true)
    (hn0 : n ≠ [])
    (hn : ∀ c ∈ n, netlocChar c)
    (hp : ∀ c ∈ p, plainUrlChar c)
    (hr : ∀ c ∈ r, plainUrlChar c)
    (hr2 : r.take 1 ≠ ['/'])
    (hr3 : ∀ seg ∈ splitSlash r, seg ≠ ['.'] ∧ seg ≠ ['.', '.']) :
    pyUrljoin (s ++ ':' :: '/' :: '/' :: (n ++ '/' :: p)) ('/' :: r) =
      s ++ ':' :: '/' :: '/' :: (n ++ '/' :: r) := by
  obtain ⟨c0, t0, hseq, hc0, halpha⟩ := hhead
  have hs0 : s ≠ [] := by rw [hseq]; simp
  have hbase0 : s ++ ':' :: '/' :: '/' :: (n ++ '/' :: p) ≠ [] := by
    rw [hseq]; simp
  have hb : pyUrlparse (s ++ ':' :: '/' :: '/' :: (n ++ '/' :: p)) [] =
      ⟨s, n, '/' :: p, [], [], []⟩ :=
    pyUrlparse_base s n p hcol ⟨c0, t0, hseq, hc0, halpha⟩ hsws hall hlower hn hp
  have hrf : pyUrlparse ('/' :: r) s = ⟨s, [], '/' :: r, [], [], []⟩ :=
    pyUrlparse_absref s r hr hr2
  have hcond1 : ¬ (s ≠ s ∨ ¬ (usesRelative.contains s = true)) := by
    rintro (h | h)
    · exact h rfl
    · exact h (List.elem_eq_true_of_mem hrel)
  have hcond2 : ¬ (usesNetloc.contains s = true ∧ ([] : List Char) ≠ []) := by
    simp
  have htk1 : ('/' :: r).take 1 = ['/'] := by simp [List.take]
  have hsegs : ∀ seg ∈ ([] : List Char) :: splitSlash r,
      seg ≠ ['.'] ∧ seg ≠ ['.', '.'] := by
    intro seg hseg
    rcases List.mem_cons.mp hseg with rfl | h2
    · exact ⟨by simp, by simp⟩
    · exact hr3 seg h2
  have hlastmem : (splitSlash r).getLastD [] ∈ splitSlash r :=
    getLastD_mem (splitSlash_ne_nil r) []
  have hlastne := hr3 _ hlastmem
  have hcond4 : ¬ ((splitSlash r).getLastD [] = ['.'] ∨
      (splitSlash r).getLastD [] = ['.', '.']) := by
    rintro (h | h)
    · exact hlastne.1 h
    · exact hlastne.2 h
  have hjoin0 : ('/' :: r) ≠ ([] : List Char) := by simp
  unfold pyUrljoin
  rw [if_neg hbase0]
  rw [if_neg (show ¬ ('/' :: r = ([] : List Char)) by simp)]
  simp only [hb, hrf, if_neg hcond1, if_neg hcond2, if_pos hnetl, htk1,
    if_pos rfl, if_true, and_true, true_and, if_neg hjoin0,
    splitSlash_cons_slash, foldl_resolveStep hsegs, List.nil_append,
    List.getLastD_cons, if_neg hcond4, joinSlash_cons_split]
  exact pyUrlunparse_simple s n r hs0 hn0

/-!
Claim theorems.
-/

/-- C1: with retries = 3 and every attempt answered 503, exactly 4 attempts
occur, the loop sleeps retry_delay * k before the k-th retry (k = 1, 2, 3;
here retry_delay = 2 gives sleeps 2, 4, 6), and the terminal outcome is built
from the last response.  The first conjunct shows the claimed ApiError
(carrying the last response's status and parsed body) when the body parses to
a JSON object; the second is the failing input for the code bug: when the
last 503 body parses to valid non-object JSON (here the empty JSON array),
line 74's `error_data.get` raises AttributeError instead of the ApiError the
claim (and spec section 7) promises — after the same 4 attempts and sleeps. -/
theorem c1_retry_503_behavior :
    makeRequest ⟨"https://api.example.com", Option.none, 30, 3, 2, false⟩
      (fun _ => AttemptOutcome.received 503
        (some (PyVal.dict [("message", PyVal.str "Service Unavailable"),
          ("code", PyVal.str "SERVICE_UNAVAILABLE")])) "" []) =
      (ReqOutcome.err ⟨PyVal.str "Service Unavailable", 503,
         PyVal.str "SERVICE_UNAVAILABLE",
         PyVal.dict [("message", PyVal.str "Service Unavailable"),
           ("code", PyVal.str "SERVICE_UNAVAILABLE")]⟩, 4, [2, 4, 6]) ∧
    makeRequest ⟨"https://api.example.com", Option.none, 30, 3, 2, false⟩
      (fun _ => AttemptOutcome.received 503 (some (PyVal.list [])) "[]" []) =
      (ReqOutcome.attributeError, 4, [2, 4, 6]) :=
  ⟨rfl, rfl⟩

/-- C2: a first attempt answered with a 4xx performs exactly one attempt, no
sleep, and surfaces the error immediately; message and code come from the
body's fields when present (first conjunct).  Failing input for the code bug:
when the 400 body parses to valid non-object JSON (here a JSON array), the
single attempt ends in an uncaught AttributeError from `error_data.get`
(line 74), not in the ApiError the claim promises (second conjunct). -/
theorem c2_four_xx_no_retry :
    makeRequest ⟨"https://api.example.com", Option.none, 30, 3, 1, false⟩
      (fun _ => AttemptOutcome.received 400
        (some (PyVal.dict [("message", PyVal.str "Bad Request"),
          ("code", PyVal.str "VALIDATION_ERROR")])) "" []) =
      (ReqOutcome.err ⟨PyVal.str "Bad Request", 400,
         PyVal.str "VALIDATION_ERROR",
         PyVal.dict [("message", PyVal.str "Bad Request"),
           ("code", PyVal.str "VALIDATION_ERROR")]⟩, 1, []) ∧
    makeRequest ⟨"https://api.example.com", Option.none, 30, 3, 1, false⟩
      (fun _ => AttemptOutcome.received 400
        (some (PyVal.list [PyVal.str "x"])) "x" []) =
      (ReqOutcome.attributeError, 1, []) :=
  ⟨rfl, rfl⟩

/-- C3 counterexample: on the 400 response whose JSON body has fields
message = Bad Request, code = VALIDATION_ERROR and details = an object with
field = email, the raised ApiError's `details` is the FULL parsed body
(line 77 passes `error_data`), not the body's `details` field, so the claim's
`details` value is wrong at this concrete input. -/
theorem c3_counterexample :
    (makeRequest ⟨"https://api.example.com", some "test-api-key", 30, 3, 1, false⟩
      (fun _ => AttemptOutcome.received 400
        (some (PyVal.dict [("message", PyVal.str "Bad Request"),
          ("code", PyVal.str "VALIDATION_ERROR"),
          ("details", PyVal.dict [("field", PyVal.str "email")])])) "" [])).1 =
      ReqOutcome.err ⟨PyVal.str "Bad Request", 400, PyVal.str "VALIDATION_ERROR",
        PyVal.dict [("message", PyVal.str "Bad Request"),
          ("code", PyVal.str "VALIDATION_ERROR"),
          ("details", PyVal.dict [("field", PyVal.str "email")])]⟩ ∧
    PyVal.dict [("message", PyVal.str "Bad Request"),
      ("code", PyVal.str "VALIDATION_ERROR"),
      ("details", PyVal.dict [("field", PyVal.str "email")])] ≠
      PyVal.dict [("field", PyVal.str "email")] :=
  ⟨rfl, by simp⟩

/-- C3 (amended): on that 400 response the call performs exactly one attempt
and raises an ApiError with status 400, code VALIDATION_ERROR, message
Bad Request, and details equal to the ENTIRE parsed body (the object with
message, code and details fields), matching spec section 4.1's "the full
parsed body as details". -/
theorem c3_error_details_full_body :
    makeRequest ⟨"https://api.example.com", some "test-api-key", 30, 3, 1, false⟩
      (fun _ => AttemptOutcome.received 400
        (some (PyVal.dict [("message", PyVal.str "Bad Request"),
          ("code", PyVal.str "VALIDATION_ERROR"),
          ("details", PyVal.dict [("field", PyVal.str "email")])])) "" []) =
      (ReqOutcome.err ⟨PyVal.str "Bad Request", 400, PyVal.str "VALIDATION_ERROR",
         PyVal.dict [("message", PyVal.str "Bad Request"),
           ("code", PyVal.str "VALIDATION_ERROR"),
           ("details", PyVal.dict [("field", PyVal.str "email")])]⟩, 1, []) :=
  rfl

/-- C7 counterexample: a raw mapping with retries = -1 and timeout = 0 is
accepted by construction (pydantic validates only the field types, there is
no range validator), and the resulting config violates both halves of the
claimed invariant. -/
theorem c7_counterexample :
    configFromDict [("base_url", PyVal.str "https://api.example.com"),
      ("retries", PyVal.int (-1)), ("timeout", PyVal.int 0)] =
      some ⟨"https://api.example.com", Option.none, 0, -1, 1, false⟩ ∧
    ¬ (0 ≤ (-1 : Int)) ∧ ¬ (0 < (0 : Int)) :=
  ⟨rfl, by decide, by decide⟩

/-- C7 (amended): the invariant holds for the DEFAULT numeric fields — any
accepted raw mapping that leaves retries and timeout unset gets retries = 3
≥ 0 and timeout = 30 > 0 — and both setters preserve retries and timeout
unchanged; but construction itself enforces no bound, so caller-supplied
retries < 0 or timeout ≤ 0 is accepted as-is. -/
theorem c7_default_invariant_and_preservation (d : List (String × PyVal))
    (c : ApiClientConfig) (hc : configFromDict d = some c)
    (hrt : alookup "retries" d = Option.none)
    (hti : alookup "timeout" d = Option.none) :
    (0 ≤ c.retries ∧ 0 < c.timeout) ∧
    ∀ (cl : ApiClient) (k b : String),
      (cl.set_api_key k).config.retries = cl.config.retries ∧
      (cl.set_api_key k).config.timeout = cl.config.timeout ∧
      (cl.set_base_url b).config.retries = cl.config.retries ∧
      (cl.set_base_url b).config.timeout = cl.config.timeout := by
  refine ⟨?_, fun cl k b => ⟨rfl, rfl, rfl, rfl⟩⟩
  have h2 : intField d "timeout" 30 = some 30 := by simp [intField, hti]
  have h3 : intField d "retries" 3 = some 3 := by simp [intField, hrt]
  unfold configFromDict at hc
  rw [h2, h3] at hc
  cases hbu : alookup "base_url" d with
  | none => rw [hbu] at hc; simp at hc
  | some v =>
    rw [hbu] at hc
    cases v with
    | str bu =>
      cases hoa : optStrField d "api_key" with
      | none => rw [hoa] at hc; simp at hc
      | some a =>
        rw [hoa] at hc
        cases hrd : intField d "retry_delay" 1 with
        | none => rw [hrd] at hc; simp at hc
        | some rd =>
          rw [hrd] at hc
          cases hdb : boolField d "debug" false with
          | none => rw [hdb] at hc; simp at hc
          | some db =>
            rw [hdb] at hc
            simp only [Option.some.injEq] at hc
            subst hc
            constructor <;> norm_num
    | int _ => simp at hc
    | bool _ => simp at hc
    | null => simp at hc
    | list _ => simp at hc
    | dict _ => simp at hc

/-- C7 witness: the amended theorem at a mapping supplying only the base
URL, whose accepted construction has retries = 3 and timeout = 30. -/
theorem c7_witness :
    (0 ≤ (ApiClientConfig.mk "https://api.example.com" Option.none 30 3 1
      false).retries ∧
     0 < (ApiClientConfig.mk "https://api.example.com" Option.none 30 3 1
      false).timeout) ∧
    ∀ (cl : ApiClient) (k b : String),
      (cl.set_api_key k).config.retries = cl.config.retries ∧
      (cl.set_api_key k).config.timeout = cl.config.timeout ∧
      (cl.set_base_url b).config.retries = cl.config.retries ∧
      (cl.set_base_url b).config.timeout = cl.config.timeout :=
  c7_default_invariant_and_preservation
    [("base_url", PyVal.str "https://api.example.com")]
    (ApiClientConfig.mk "https://api.example.com" Option.none 30 3 1 false)
    rfl rfl rfl

/-- C8 counterexample: an EMPTY configured credential token yields no
Authorization header at all — `if config.api_key:` (line 47) treats the
empty string as falsy — falsifying "for every configured credential token". -/
theorem c8_counterexample :
    alookup "Authorization"
      (ApiClient.init ⟨"https://api.example.com", some "", 30, 3, 1, false⟩).headers =
      Option.none :=
  rfl

/-- C8 (amended): for every configured NON-EMPTY credential token the session
headers — sent on every outgoing request — carry Authorization: Bearer token;
and after set_api_key(t) the session headers carry Authorization: Bearer t
for every t (set_api_key writes the header unconditionally). -/
theorem c8_bearer_header (cfg : ApiClientConfig) (k : String)
    (hk : cfg.api_key = some k) (hne : k ≠ "") :
    alookup "Authorization" (ApiClient.init cfg).headers =
      some ("Bearer " ++ k) ∧
    ∀ (cl : ApiClient) (t : String),
      alookup "Authorization" (cl.set_api_key t).headers =
        some ("Bearer " ++ t) := by
  constructor
  · have htr : pyTruthyOptStr (some k) = true := by
      unfold pyTruthyOptStr
      simp [hne]
    unfold ApiClient.init
    simp only [hk, htr, if_true]
    simpa using alookup_dictSet_self
      (dictSet [] "Content-Type" "application/json") "Authorization"
      ("Bearer " ++ k)
  · intro cl t
    exact alookup_dictSet_self cl.headers "Authorization" ("Bearer " ++ t)

/-- C8 witness: the amended theorem at the test configuration with token
test-api-key, and a set_api_key call installing a new token. -/
theorem c8_witness :
    alookup "Authorization"
      (ApiClient.init ⟨"https://api.example.com", some "test-api-key", 30, 3, 1,
        false⟩).headers = some ("Bearer " ++ "test-api-key") ∧
    alookup "Authorization"
      ((ApiClient.init ⟨"https://api.example.com", some "test-api-key", 30, 3, 1,
        false⟩).set_api_key "new-key").headers = some ("Bearer " ++ "new-key") := by
  have h := c8_bearer_header
    ⟨"https://api.example.com", some "test-api-key", 30, 3, 1, false⟩
    "test-api-key" rfl (by decide)
  exact ⟨h.1, h.2 _ "new-key"⟩

/-- C9: after set_base_url(b), a GET resolves its path against the new base
address b — the request's full URL is urljoin(b, path) — and, whenever the
two resolutions differ, not against the base address configured at
construction. -/
theorem c9_set_base_url_resolution (cfg : ApiClientConfig) (b url : String)
    (env : Nat → AttemptOutcome) :
    (((ApiClient.init cfg).set_base_url b).get url env).1 =
      pyUrljoin b.toList url.toList ∧
    (pyUrljoin b.toList url.toList ≠ pyUrljoin cfg.base_url.toList url.toList →
      (((ApiClient.init cfg).set_base_url b).get url env).1 ≠
        pyUrljoin cfg.base_url.toList url.toList) := by
  refine ⟨rfl, fun h => ?_⟩
  exact h

/-- C9 witness: replacing the base address and issuing a GET to /test
resolves against the new address, not the constructed one. -/
theorem c9_witness :
    (((ApiClient.init ⟨"https://api.example.com", Option.none, 30, 3, 1,
        false⟩).set_base_url "https://api2.example.com").get "/test"
        (fun _ => AttemptOutcome.raised "offline")).1 =
      pyUrljoin "https://api2.example.com".toList "/test".toList ∧
    (((ApiClient.init ⟨"https://api.example.com", Option.none, 30, 3, 1,
        false⟩).set_base_url "https://api2.example.com").get "/test"
        (fun _ => AttemptOutcome.raised "offline")).1 ≠
      pyUrljoin "https://api.example.com".toList "/test".toList := by
  have h := c9_set_base_url_resolution
    ⟨"https://api.example.com", Option.none, 30, 3, 1, false⟩
    "https://api2.example.com" "/test" (fun _ => AttemptOutcome.raised "offline")
  exact ⟨h.1, h.2 (by decide)⟩

/-- C10 counterexample: a request path beginning with '/' may begin with
'//', and RFC 3986 / urljoin then treats it as a network-path reference: the
base's AUTHORITY is replaced as well, so the resolved URL does not keep the
base's scheme-plus-authority as the claim states. -/
theorem c10_counterexample :
    pyUrljoin "https://host/v1".toList "//evil/users".toList =
      "https://evil/users".toList ∧
    pyUrljoin "https://host/v1".toList "//evil/users".toList ≠
      "https://host/users".toList := by
  refine ⟨by decide, by decide⟩

/-- C10 (amended): URL resolution is RFC 3986 relative-reference joining,
not concatenation.  For every http or https base address with a nonempty
bracket-free authority and a path component, and every request path that
begins with '/' but not '//' and is made of ordinary path characters (no
query, fragment, params delimiters, and no '.' or '..' segments), the
resolved URL keeps only the base's scheme and authority, discards the base's
path component entirely, and appends the request path — e.g. joining base
https host slash v1 with /users gives https host slash users, never
https host slash v1 slash users. -/
theorem c10_urljoin_discards_base_path (s n p r : List Char)
    (hs : s = "http".toList ∨ s = "https".toList)
    (hn0 : n ≠ [])
    (hn : ∀ c ∈ n, netlocChar c)
    (hp : ∀ c ∈ p, plainUrlChar c)
    (hr : ∀ c ∈ r, plainUrlChar c)
    (hr2 : r.take 1 ≠ ['/'])
    (hr3 : ∀ seg ∈ splitSlash r, seg ≠ ['.'] ∧ seg ≠ ['.', '.']) :
    pyUrljoin (s ++ "://".toList ++ n ++ "/".toList ++ p) ('/' :: r) =
      s ++ "://".toList ++ n ++ "/".toList ++ r := by
  have hb : s ++ "://".toList ++ n ++ "/".toList ++ p =
      s ++ ':' :: '/' :: '/' :: (n ++ '/' :: p) := by
    show s ++ [':', '/', '/'] ++ n ++ ['/'] ++ p = _
    simp [List.append_assoc]
  have hb2 : s ++ "://".toList ++ n ++ "/".toList ++ r =
      s ++ ':' :: '/' :: '/' :: (n ++ '/' :: r) := by
    show s ++ [':', '/', '/'] ++ n ++ ['/'] ++ r = _
    simp [List.append_assoc]
  rw [hb, hb2]
  rcases hs with rfl | rfl
  · exact pyUrljoin_absref_general "http".toList n p r (by decide)
      ⟨'h', "ttp".toList, by decide, by decide, by decide⟩ (by decide)
      (by decide) (by decide) (by decide) (by decide) hn0 hn hp hr hr2 hr3
  · exact pyUrljoin_absref_general "https".toList n p r (by decide)
      ⟨'h', "ttps".toList, by decide, by decide, by decide⟩ (by decide)
      (by decide) (by decide) (by decide) (by decide) hn0 hn hp hr hr2 hr3

/-- C10 witness: joining base https://host/v1 with request path /users gives
https://host/users — the base path v1 is discarded, the authority kept. -/
theorem c10_witness :
    pyUrljoin "https://host/v1".toList "/users".toList =
      "https://host/users".toList := by
  have h := c10_urljoin_discards_base_path "https".toList "host".toList
    "v1".toList "users".toList (Or.inr rfl) (by decide) (by decide) (by decide)
    (by decide) (by decide) (by decide)
  exact h
